import Mathlib

/-!
Formal model of the Sentinel AVS (Zcash → Aztec bridge watcher), embedded
shallowly from the Rust sources under `sentinel/src/`.  Bytes are naturals
below 256, machine integers are naturals (with explicit `% 2^w` where the
source can overflow), fallible Rust functions return `Except`.
-/

set_option maxHeartbeats 1000000

namespace Sentinel

/-- A byte: a natural number below 256. -/
abbrev Byte := Nat

/-- Error type of the service (`error.rs`, lines 6–43).  Each variant carries
its message string. -/
inductive SentinelError where
  | Config (msg : String)
  | Scanner (msg : String)
  | MemoParse (msg : String)
  | Signing (msg : String)
  | L1 (msg : String)
  | Grpc (msg : String)
  | Decryption (msg : String)
  | InvalidPayload (msg : String)
  | Network (msg : String)
deriving DecidableEq, Repr

/-- Bridge payload extracted from a Zcash memo (`main.rs`, lines 23–35).
`tx_hash`, `secret_hash` and `aztec_address` are 32-byte values, `amount` is a
`u64` and `block_height` a `u32`. -/
structure BridgePayload where
  tx_hash : List Byte
  amount : Nat
  secret_hash : List Byte
  aztec_address : List Byte
  block_height : Nat
deriving DecidableEq, Repr

/-- Attestation signed by the operator (`main.rs`, lines 38–46). -/
structure Attestation where
  payload : BridgePayload
  nonce : Nat
  signature : List Byte
deriving DecidableEq, Repr

/-! ## Scanner (`scanner.rs`)

The scanner's behaviour relevant to the claims depends only on
`confirmation_depth` and `last_height`; the remaining fields of the Rust
struct (URLs, keys, the channel handle, the memo parser) do not influence the
scan-range logic and are omitted.  Errors produced through `anyhow` are
modelled as strings. -/

/-- Scanner state (`scanner.rs`, lines 31–52), restricted to the fields the
scan logic reads. -/
structure Scanner where
  confirmation_depth : Nat
  last_height : Nat
deriving DecidableEq, Repr

/-- `get_blockchain_height` (`scanner.rs`, lines 156–163): the gRPC call is
commented out in the source and the function returns the mock constant
`1000`. -/
def Scanner.get_blockchain_height (_s : Scanner) : Except String Nat :=
  .ok 1000

/-- `scan_block` (`scanner.rs`, lines 166–212): the mock transaction list is
the empty vector, the loop body is commented out, and the function returns
`Ok(None)` when no deposit was collected. -/
def Scanner.scan_block (_s : Scanner) (_height : Nat) :
    Except String (Option (List BridgePayload)) :=
  let transactions : List Unit := []
  let deposits : List BridgePayload :=
    transactions.foldl (fun acc _tx => acc) []
  if deposits.isEmpty then .ok none else .ok (some deposits)

/-- The inclusive range of heights iterated by the `for` loop of
`scan_new_blocks` (`scanner.rs`, line 132): `(last_height + 1)..=safe` where
`safe = current_height.saturating_sub(confirmation_depth)`; empty when
`safe <= last_height`.  Natural-number subtraction is Rust's saturating
subtraction. -/
def Scanner.scannedHeights (s : Scanner) (current_height : Nat) : List Nat :=
  let safe := current_height - s.confirmation_depth
  if safe ≤ s.last_height then []
  else List.range' (s.last_height + 1) (safe - s.last_height)

/-- The `for` loop of `scan_new_blocks` (`scanner.rs`, lines 132–146):
process each height in order, counting blocks and sending every deposit of a
`Some` result over the channel (a channel send error is only logged, so
sending is modelled as appending to the sent list); a `scan_block` error
aborts the loop through `?`. -/
def Scanner.processBlocks (s : Scanner) (heights : List Nat)
    (acc : Nat × List BridgePayload) : Except String (Nat × List BridgePayload) :=
  heights.foldlM
    (fun (acc : Nat × List BridgePayload) height => do
      match ← s.scan_block height with
      | some deposits => pure (acc.1 + 1, acc.2 ++ deposits)
      | none => pure (acc.1 + 1, acc.2))
    acc

/-- `scan_new_blocks` (`scanner.rs`, lines 113–153).  Returns the number of
blocks processed, the deposits sent over the channel, and the scanner state
afterwards.  The cursor update `self.last_height = safe_height` at line 150
is commented out in the source (`&self` cannot be mutated), so the returned
state is the input state unchanged. -/
def Scanner.scan_new_blocks (s : Scanner) :
    Except String (Nat × List BridgePayload × Scanner) := do
  let current_height ← s.get_blockchain_height
  let safe_height := current_height - s.confirmation_depth
  if safe_height ≤ s.last_height then
    return (0, [], s)
  else
    let r ← s.processBlocks (s.scannedHeights current_height) (0, [])
    return (r.1, r.2, s)

/-! ## Keccak-256 (`ethers::utils::keccak256`)

The signer hashes with `ethers::utils::keccak256`, standard Keccak-256
(rate 136, multi-rate padding with domain byte `0x01`).  Modelled here in
full: lanes are 64-bit values carried as naturals, masked at 64 bits. -/

/-- The 64-bit mask `2^64 - 1`. -/
def mask64 : Nat := 2 ^ 64 - 1

/-- Rotate a 64-bit lane left by `n` (for `0 ≤ n < 64`). -/
def rotl64 (x n : Nat) : Nat :=
  ((x <<< n) ||| (x >>> (64 - n))) &&& mask64

/-- Keccak ρ rotation offsets, indexed by lane `x + 5 * y`. -/
def rhoOffsets : List Nat :=
  [0, 1, 0x3e, 28, 27, 0x24, 44, 6, 0x37, 20, 3, 0xa, 43, 25, 0x27,
   41, 45, 0xf, 21, 8, 0x12, 2, 61, 0x38, 14]

/-- Keccak ι round constants for the 24 rounds of Keccak-f[1600]. -/
def roundConstants : List Nat :=
  [0x0000000000000001, 0x0000000000008082, 0x800000000000808a, 0x8000000080008000,
   0x000000000000808b, 0x0000000080000001, 0x8000000080008081, 0x8000000000008009,
   0x000000000000008a, 0x0000000000000088, 0x0000000080008009, 0x000000008000000a,
   0x000000008000808b, 0x800000000000008b, 0x8000000000008089, 0x8000000000008003,
   0x8000000000008002, 0x8000000000000080, 0x000000000000800a, 0x800000008000000a,
   0x8000000080008081, 0x8000000000008080, 0x0000000080000001, 0x8000000080008008]

/-- Keccak θ step on a 25-lane state. -/
def theta (A : List Nat) : List Nat :=
  let C := List.ofFn (fun x : Fin 5 =>
    A.getD x.1 0 ^^^ A.getD (x.1 + 5) 0 ^^^ A.getD (x.1 + 10) 0 ^^^
      A.getD (x.1 + 15) 0 ^^^ A.getD (x.1 + 20) 0)
  let D := List.ofFn (fun x : Fin 5 =>
    C.getD ((x.1 + 4) % 5) 0 ^^^ rotl64 (C.getD ((x.1 + 1) % 5) 0) 1)
  List.ofFn (fun i : Fin 25 => A.getD i.1 0 ^^^ D.getD (i.1 % 5) 0)

/-- Keccak ρ and π steps: lane `(x, y)` is rotated by its offset and moved to
position `(y, 2x + 3y mod 5)`. -/
def rhoPi (A : List Nat) : List Nat :=
  (List.range 25).foldl (fun B i =>
    let x := i % 5
    let y := i / 5
    let j := y + 5 * ((2 * x + 3 * y) % 5)
    B.set j (rotl64 (A.getD i 0) (rhoOffsets.getD i 0)))
    (List.replicate 25 0)

/-- Keccak χ step. -/
def chi (B : List Nat) : List Nat :=
  List.ofFn (fun i : Fin 25 =>
    let x := i.1 % 5
    let y := i.1 / 5
    B.getD i.1 0 ^^^
      ((B.getD ((x + 1) % 5 + 5 * y) 0 ^^^ mask64) &&& B.getD ((x + 2) % 5 + 5 * y) 0))

/-- Keccak ι step: XOR the round constant into lane 0. -/
def iota (round : Nat) (A : List Nat) : List Nat :=
  A.set 0 (A.getD 0 0 ^^^ roundConstants.getD round 0)

/-- Keccak-f[1600]: 24 rounds of θ, ρ, π, χ, ι. -/
def keccakF (A : List Nat) : List Nat :=
  (List.range 24).foldl (fun B r => iota r (chi (rhoPi (theta B)))) A

/-- Multi-rate padding for rate 136 with Keccak's `0x01` domain byte. -/
def keccakPad (msg : List Byte) : List Byte :=
  let padLen := 136 - msg.length % 136
  if padLen = 1 then msg ++ [0x81]
  else msg ++ [0x01] ++ List.replicate (padLen - 2) 0 ++ [0x80]

/-- A 64-bit lane from (up to) eight little-endian bytes. -/
def leLane (bs : List Byte) : Nat :=
  bs.foldr (fun b acc => acc * 256 + b % 256) 0

/-- XOR one 136-byte block into the first 17 lanes of the state. -/
def absorbBlock (A : List Nat) (block : List Byte) : List Nat :=
  List.ofFn (fun i : Fin 25 =>
    A.getD i.1 0 ^^^ (if i.1 < 17 then leLane ((block.drop (8 * i.1)).take 8) else 0))

/-- The eight little-endian bytes of a 64-bit lane. -/
def laneLEBytes (x : Nat) : List Byte :=
  (List.range 8).map (fun i => (x >>> (8 * i)) &&& 255)

/-- Keccak-256 of a byte string, as used by `ethers::utils::keccak256`. -/
def keccak256 (msg : List Byte) : List Byte :=
  let padded := keccakPad msg
  let blocks := (List.range (padded.length / 136)).map
    (fun i => (padded.drop (136 * i)).take 136)
  let A := blocks.foldl (fun B b => keccakF (absorbBlock B b)) (List.replicate 25 0)
  ((List.range 4).map (fun i => laneLEBytes (A.getD i 0))).foldr (· ++ ·) []

/-- The Unicode code points of a string (used for ASCII literals such as the
canonical function-signature string). -/
def asciiCodes (s : String) : List Nat := s.data.map Char.toNat

/-! ## ABI encoding (`ethers::abi::encode`, the ethabi mediator)

`ethers::abi::encode` mediates each token into a head and a tail; static
tokens are placed inline, dynamic tokens contribute a 32-byte offset word in
the head and their encoding in the tail, offsets counted from the start of
the encoded block. -/

/-- The non-container ABI token values the signer constructs
(`ethers::abi::Token`): `bytes32` words, 256-bit integers, addresses and
dynamic `bytes`. -/
inductive BToken where
  | fixedBytes (bs : List Byte)
  | uint (n : Nat)
  | address (a : Nat)
  | bytes (bs : List Byte)
deriving DecidableEq, Repr

/-- ABI tokens with one level of container nesting: a base token, an array of
base tokens, or a tuple of base tokens.  This covers every token shape the
source constructs (`signer.rs` builds only flat token vectors, a `bytes`
argument and an `address[]` argument) as well as the argument tuple the spec
describes; ethabi's deeper nesting is not needed by this program. -/
inductive Token where
  | base (t : BToken)
  | array (ts : List BToken)
  | tuple (ts : List BToken)
deriving DecidableEq, Repr

/-- Big-endian byte encoding of `n` in exactly `len` bytes (low `len` bytes
of `n`). -/
def beBytes : Nat → Nat → List Byte
  | 0, _ => []
  | len + 1, n => beBytes len (n / 256) ++ [n % 256]

/-- Zero-pad a byte string on the right to a multiple of 32 bytes. -/
def padRight32 (bs : List Byte) : List Byte :=
  bs ++ List.replicate ((32 - bs.length % 32) % 32) 0

/-- Interleave mediated parts `(isDynamic, encoding)` into `(head, tail)`:
a static part is placed inline in the head; a dynamic part contributes the
32-byte word of its running offset to the head and its encoding to the tail. -/
def assemble (offset : Nat) : List (Bool × List Byte) → List Byte × List Byte
  | [] => ([], [])
  | p :: ps =>
    if p.1 then
      let r := assemble (offset + p.2.length) ps
      (beBytes 32 offset ++ r.1, p.2 ++ r.2)
    else
      let r := assemble offset ps
      (p.2 ++ r.1, r.2)

/-- Assemble mediated parts into the head ++ tail form, the first dynamic
offset being the total head length, as in ethabi's `encode_head_tail`:
offsets are relative to the start of the block. -/
def assembleParts (parts : List (Bool × List Byte)) : List Byte :=
  let headLen :=
    parts.foldl (fun acc p => acc + (if p.1 then 32 else p.2.length)) 0
  let r := assemble headLen parts
  r.1 ++ r.2

/-- Whether a base token is a dynamic ABI type: only `bytes` is. -/
def BToken.isDynamic : BToken → Bool
  | .bytes _ => true
  | _ => false

/-- The standalone encoding of a base token (its tail content when
dynamic): `bytes32` right-padded, integers and addresses as 32-byte
big-endian words, `bytes` as a length word followed by the right-padded
data. -/
def BToken.enc : BToken → List Byte
  | .fixedBytes bs => padRight32 bs
  | .uint n => beBytes 32 n
  | .address a => beBytes 32 a
  | .bytes bs => beBytes 32 bs.length ++ padRight32 bs

/-- `ethers::abi::encode` on a vector of base tokens: head ++ tail encoding. -/
def abiEncodeB (ts : List BToken) : List Byte :=
  assembleParts (ts.map fun t => (t.isDynamic, t.enc))

/-- Whether a token is dynamic: `bytes` and arrays are, a tuple is when any
component is. -/
def Token.isDynamic : Token → Bool
  | .base t => t.isDynamic
  | .array _ => true
  | .tuple ts => ts.any BToken.isDynamic

/-- The standalone encoding of a token: an array is its length word followed
by the head ++ tail encoding of its elements; a tuple is the head ++ tail
encoding of its components. -/
def Token.enc : Token → List Byte
  | .base t => t.enc
  | .array ts => beBytes 32 ts.length ++ abiEncodeB ts
  | .tuple ts => abiEncodeB ts

/-- `ethers::abi::encode`: head ++ tail encoding of the argument tokens. -/
def abiEncode (tokens : List Token) : List Byte :=
  assembleParts (tokens.map fun t => (t.isDynamic, t.enc))

/-! ## Attestation signer (`signer.rs`) -/

/-- Signer state (`signer.rs`, lines 17–29): the wallet is reduced to its
20-byte address (as a natural), which is all the calldata construction
reads. -/
structure AttestationSigner where
  wallet_address : Nat
  service_manager_address : Nat
  chain_id : Nat
deriving DecidableEq, Repr

/-- The token vector for a payload and nonce, as constructed both by
`compute_payload_hash` (`signer.rs`, lines 164–171) and by
`submit_attestation` (`signer.rs`, lines 106–113). -/
def payloadTokens (payload : BridgePayload) (nonce : Nat) : List BToken :=
  [.fixedBytes payload.tx_hash,
   .uint payload.amount,
   .fixedBytes payload.secret_hash,
   .fixedBytes payload.aztec_address,
   .uint nonce,
   .uint payload.block_height]

/-- `compute_payload_hash` (`signer.rs`, lines 161–175): keccak256 of the ABI
encoding of the six payload tokens. -/
def AttestationSigner.compute_payload_hash (_s : AttestationSigner)
    (payload : BridgePayload) (nonce : Nat) : List Byte :=
  keccak256 (abiEncodeB (payloadTokens payload nonce))

/-- The 4-byte function selector computed by `submit_attestation`
(`signer.rs`, lines 100–102). -/
def verifyAndDispatchSelector : List Byte :=
  (keccak256 (asciiCodes
    "verifyAndDispatch((bytes32,uint256,bytes32,bytes32,uint64,uint32),bytes,address[])")).take 4

/-- The calldata built by `submit_attestation` (`signer.rs`, lines 96–134):
the selector followed by three independently ABI-encoded pieces — the six
payload tokens, the signature as a single `bytes` argument, and the signer
array as a single `address[]` argument. -/
def AttestationSigner.submit_calldata (s : AttestationSigner)
    (att : Attestation) : List Byte :=
  let encoded_payload := abiEncodeB (payloadTokens att.payload att.nonce)
  let encoded_sig := abiEncodeB [.bytes att.signature]
  let encoded_signers := abiEncode [.array [.address s.wallet_address]]
  verifyAndDispatchSelector ++ encoded_payload ++ encoded_sig ++ encoded_signers

/-- Modelled from the spec: the calldata §4.6 describes — the selector
followed by the standard ABI encoding of the argument tuple
`(payload-as-six-word-struct, signature-as-bytes, [signer-address])`, i.e.
one head/tail block over the three arguments. -/
def AttestationSigner.submit_calldata_spec (s : AttestationSigner)
    (att : Attestation) : List Byte :=
  verifyAndDispatchSelector ++
    abiEncode [.tuple (payloadTokens att.payload att.nonce),
               .base (.bytes att.signature),
               .array [.address s.wallet_address]]

/-! ## Attestation consumer (`main.rs`, lines 95–126)

The consumer drains the deposit channel in order; for each deposit it signs
with the current nonce counter, submits on signing success, and increments the
counter only on submission success.  The outcomes of the two external calls
(`sign_attestation`'s wallet signature and `submit_attestation`'s L1
round-trip) are modelled as oracles indexed by the deposit's arrival
position. -/

/-- Outcomes of the external signing and submission calls for the deposit at
a given arrival position: the signature bytes on signing success, the
transaction-hash string on submission success. -/
structure ConsumerEnv where
  signResult : Nat → Except SentinelError (List Byte)
  submitResult : Nat → Except SentinelError String

/-- Consumer state: the nonce counter (`main.rs`, line 96), every attestation
produced by `sign_attestation`, and every attestation whose submission
succeeded, both in processing order. -/
structure ConsumerState where
  nonce : Nat
  signed : List Attestation
  submitted : List Attestation
deriving DecidableEq, Repr

/-- One iteration of the consumer loop body (`main.rs`, lines 98–125) on the
deposit at arrival position `i`. -/
def consumerStep (env : ConsumerEnv) (i : Nat) (st : ConsumerState)
    (payload : BridgePayload) : ConsumerState :=
  match env.signResult i with
  | .error _ => st
  | .ok sig =>
    let att : Attestation := ⟨payload, st.nonce, sig⟩
    match env.submitResult i with
    | .ok _ =>
      { nonce := st.nonce + 1
        signed := st.signed ++ [att]
        submitted := st.submitted ++ [att] }
    | .error _ =>
      { st with signed := st.signed ++ [att] }

/-- The consumer loop from arrival position `i` onwards. -/
def runConsumerFrom (env : ConsumerEnv) (i : Nat) (st : ConsumerState) :
    List BridgePayload → ConsumerState
  | [] => st
  | p :: rest => runConsumerFrom env (i + 1) (consumerStep env i st p) rest

/-- The consumer loop (`main.rs`, lines 95–126): nonce counter starts at `0`,
no attestation yet. -/
def runConsumer (env : ConsumerEnv) (deposits : List BridgePayload) :
    ConsumerState :=
  runConsumerFrom env 0 ⟨0, [], []⟩ deposits

/-! ## Memo parsing (`memo.rs`)

`memo.rs` works on a 512-byte memo: truncate at the first zero byte, decode
as UTF-8 (`std::str::from_utf8`), trim (`str::trim`), parse as JSON
(`serde_json::from_str::<MemoPayload>`), check type and version, then decode
the two hex fields.  The external codecs (UTF-8, JSON, hex) are modelled in
full below; strings are carried as lists of Unicode code points. -/

/-- Whether a code point has the Unicode `White_Space` property, as Rust's
`char::is_whitespace` used by `str::trim`. -/
def isRustWhitespace (c : Nat) : Bool :=
  (0x09 ≤ c && c ≤ 0x0D) || c = 0x20 || c = 0x85 || c = 0xA0 || c = 0x1680 ||
  (0x2000 ≤ c && c ≤ 0x200A) || c = 0x2028 || c = 0x2029 || c = 0x202F ||
  c = 0x205F || c = 0x3000

/-- `str::trim`: drop whitespace from both ends. -/
def trimCp (cs : List Nat) : List Nat :=
  ((cs.dropWhile isRustWhitespace).reverse.dropWhile isRustWhitespace).reverse

/-- Whether a byte continues a UTF-8 sequence (`0x80..0xBF`). -/
def isUtf8Cont (b : Nat) : Bool := 0x80 ≤ b && b ≤ 0xBF

/-- Decode a two-byte UTF-8 sequence with lead byte `b` (`0xC2..0xDF`). -/
def utf8Two (b : Nat) : List Byte → Option (Nat × List Byte)
  | b2 :: bs2 =>
    if isUtf8Cont b2 then some ((b - 0xC0) * 64 + (b2 - 0x80), bs2) else none
  | [] => none

/-- Decode a three-byte UTF-8 sequence with lead byte `b` (`0xE0..0xEF`):
the second-byte range excludes overlong forms after `0xE0` and surrogates
after `0xED`. -/
def utf8Three (b : Nat) : List Byte → Option (Nat × List Byte)
  | b2 :: b3 :: bs2 =>
    let lo2 := if b = 0xE0 then 0xA0 else 0x80
    let hi2 := if b = 0xED then 0x9F else 0xBF
    if (lo2 ≤ b2 && b2 ≤ hi2) && isUtf8Cont b3 then
      some ((b - 0xE0) * 4096 + (b2 - 0x80) * 64 + (b3 - 0x80), bs2)
    else none
  | _ => none

/-- Decode a four-byte UTF-8 sequence with lead byte `b` (`0xF0..0xF4`):
the second-byte range excludes overlong forms after `0xF0` and values above
`0x10FFFF` after `0xF4`. -/
def utf8Four (b : Nat) : List Byte → Option (Nat × List Byte)
  | b2 :: b3 :: b4 :: bs2 =>
    let lo2 := if b = 0xF0 then 0x90 else 0x80
    let hi2 := if b = 0xF4 then 0x8F else 0xBF
    if (lo2 ≤ b2 && b2 ≤ hi2) && isUtf8Cont b3 && isUtf8Cont b4 then
      some ((b - 0xF0) * 262144 + (b2 - 0x80) * 4096 +
        (b3 - 0x80) * 64 + (b4 - 0x80), bs2)
    else none
  | _ => none

/-- Decode one UTF-8 sequence starting with byte `b`: the code point and the
remaining bytes. -/
def utf8DecodeRest (b : Nat) (bs : List Byte) : Option (Nat × List Byte) :=
  if b < 0x80 then some (b, bs)
  else if 0xC2 ≤ b && b ≤ 0xDF then utf8Two b bs
  else if 0xE0 ≤ b && b ≤ 0xEF then utf8Three b bs
  else if 0xF0 ≤ b && b ≤ 0xF4 then utf8Four b bs
  else none

/-- Fueled UTF-8 decoding loop; each step consumes at least one byte, so
fuel `length + 1` never runs out. -/
def utf8DecodeF : Nat → List Byte → Option (List Nat)
  | 0, _ => none
  | _ + 1, [] => some []
  | fuel + 1, b :: bs =>
    match utf8DecodeRest b bs with
    | some (c, rest) => (fun cs => c :: cs) <$> utf8DecodeF fuel rest
    | none => none

/-- Strict UTF-8 decoding of a byte string into code points, as Rust's
`std::str::from_utf8`: rejects overlong forms, surrogates and values above
`0x10FFFF` through the usual per-lead-byte second-byte ranges. -/
def utf8Decode (bs : List Byte) : Option (List Nat) :=
  utf8DecodeF (bs.length + 1) bs

/-- UTF-8 encoding of one code point. -/
def utf8EncodeChar (c : Nat) : List Byte :=
  if c < 0x80 then [c]
  else if c < 0x800 then [0xC0 + c / 64, 0x80 + c % 64]
  else if c < 0x10000 then
    [0xE0 + c / 4096, 0x80 + c / 64 % 64, 0x80 + c % 64]
  else
    [0xF0 + c / 262144, 0x80 + c / 4096 % 64, 0x80 + c / 64 % 64, 0x80 + c % 64]

/-- UTF-8 encoding of a code-point string into bytes. -/
def utf8Encode (cs : List Nat) : List Byte :=
  cs.foldr (fun c acc => utf8EncodeChar c ++ acc) []

/-- Whether a code point is an ASCII hexadecimal digit (the `hex` crate
accepts both cases). -/
def isHexDigitCp (c : Nat) : Bool :=
  (48 ≤ c && c ≤ 57) || (97 ≤ c && c ≤ 102) || (65 ≤ c && c ≤ 70)

/-- The numeric value of a hexadecimal digit code point. -/
def hexDigitVal (c : Nat) : Nat :=
  if 48 ≤ c && c ≤ 57 then c - 48
  else if 97 ≤ c && c ≤ 102 then c - 87
  else c - 55

/-- `hex::decode`: pairs of hex digits into bytes; `none` on odd length or a
non-hex character (the crate's `OddLength` and `InvalidHexCharacter`
errors). -/
def hexDecode : List Nat → Option (List Byte)
  | [] => some []
  | [_] => none
  | c1 :: c2 :: rest =>
    if isHexDigitCp c1 && isHexDigitCp c2 then
      (fun bs => (hexDigitVal c1 * 16 + hexDigitVal c2) :: bs) <$> hexDecode rest
    else none

/-- The lowercase hex digit for a value below 16. -/
def hexDigitChar (n : Nat) : Nat := if n < 10 then 48 + n else 87 + n

/-- `hex::encode`: each byte as two lowercase hex digits. -/
def hexEncode (bs : List Byte) : List Nat :=
  bs.foldr (fun b acc =>
    hexDigitChar (b / 16 % 16) :: hexDigitChar (b % 16) :: acc) []

/-! ### JSON (`serde_json`)

A model of `serde_json`'s parser over code-point strings, sufficient for the
memo grammar: values are null, booleans, numbers, strings with the standard
escapes, arrays and objects; numbers record sign, integer magnitude, and
whether the literal was an integer (no fraction or exponent), which is what
`u8` deserialization inspects.  Nested values are driven by a fuel argument
bounded by the input length (each nesting level consumes at least one
character, so the fuel never runs out on a parse that would succeed). -/

/-- A parsed JSON value. -/
inductive JVal where
  | jnull
  | jbool (b : Bool)
  | jnum (neg : Bool) (n : Nat) (isInt : Bool)
  | jstr (s : List Nat)
  | jarr (vs : List JVal)
  | jobj (ms : List (List Nat × JVal))
deriving Repr

/-- JSON insignificant whitespace: space, tab, line feed, carriage return. -/
def isJsonWs (c : Nat) : Bool :=
  c = 0x20 || c = 0x09 || c = 0x0A || c = 0x0D

/-- Drop leading JSON whitespace. -/
def skipWs : List Nat → List Nat
  | [] => []
  | c :: cs => if isJsonWs c then skipWs cs else c :: cs

/-- Parse a JSON string body after the opening quote: returns the content
and the rest of the input after the closing quote.  Handles the standard
escapes and `\uXXXX` for non-surrogate code points; unescaped control
characters are rejected. -/
def parseStringBody : List Nat → Option (List Nat × List Nat)
  | [] => none
  | c :: cs =>
    if c = 34 then some ([], cs)
    else if c = 92 then
      match cs with
      | [] => none
      | e :: cs2 =>
        if e = 34 || e = 92 || e = 47 then
          (fun r => (e :: r.1, r.2)) <$> parseStringBody cs2
        else if e = 98 then (fun r => (8 :: r.1, r.2)) <$> parseStringBody cs2
        else if e = 116 then (fun r => (9 :: r.1, r.2)) <$> parseStringBody cs2
        else if e = 110 then (fun r => (10 :: r.1, r.2)) <$> parseStringBody cs2
        else if e = 102 then (fun r => (12 :: r.1, r.2)) <$> parseStringBody cs2
        else if e = 114 then (fun r => (13 :: r.1, r.2)) <$> parseStringBody cs2
        else if e = 117 then
          match cs2 with
          | h1 :: h2 :: h3 :: h4 :: cs3 =>
            if isHexDigitCp h1 && isHexDigitCp h2 && isHexDigitCp h3 &&
                isHexDigitCp h4 then
              let cp := hexDigitVal h1 * 4096 + hexDigitVal h2 * 256 +
                hexDigitVal h3 * 16 + hexDigitVal h4
              if 0xD800 ≤ cp && cp ≤ 0xDFFF then none
              else (fun r => (cp :: r.1, r.2)) <$> parseStringBody cs3
            else none
          | _ => none
        else none
    else if c < 0x20 then none
    else (fun r => (c :: r.1, r.2)) <$> parseStringBody cs

/-- Take leading ASCII decimal digits. -/
def takeDigits : List Nat → List Nat × List Nat
  | [] => ([], [])
  | c :: cs =>
    if 48 ≤ c && c ≤ 57 then
      let r := takeDigits cs
      (c :: r.1, r.2)
    else ([], c :: cs)

/-- The natural number denoted by a list of decimal digit code points. -/
def natOfDigits (ds : List Nat) : Nat :=
  ds.foldl (fun acc c => acc * 10 + (c - 48)) 0

/-- Parse a JSON number body (the optional minus already consumed): an
integer part without redundant leading zero, an optional fraction and an
optional exponent; records whether the literal was a plain integer. -/
def parseNumberBody (neg : Bool) (input : List Nat) :
    Option (JVal × List Nat) :=
  match takeDigits input with
  | ([], _) => none
  | (d :: ds, rest) =>
    if d = 48 && ds ≠ [] then none
    else
      let intVal := natOfDigits (d :: ds)
      match rest with
      | 46 :: rest2 =>
        match takeDigits rest2 with
        | ([], _) => none
        | (_ :: _, rest3) =>
          match rest3 with
          | e :: rest4 =>
            if e = 101 || e = 69 then
              match rest4 with
              | s :: rest5 =>
                if s = 43 || s = 45 then
                  match takeDigits rest5 with
                  | ([], _) => none
                  | (_ :: _, rest6) => some (.jnum neg intVal false, rest6)
                else
                  match takeDigits rest4 with
                  | ([], _) => none
                  | (_ :: _, rest6) => some (.jnum neg intVal false, rest6)
              | [] => none
            else some (.jnum neg intVal false, rest3)
          | [] => some (.jnum neg intVal false, [])
      | e :: rest2 =>
        if e = 101 || e = 69 then
          match rest2 with
          | s :: rest3 =>
            if s = 43 || s = 45 then
              match takeDigits rest3 with
              | ([], _) => none
              | (_ :: _, rest4) => some (.jnum neg intVal false, rest4)
            else
              match takeDigits rest2 with
              | ([], _) => none
              | (_ :: _, rest4) => some (.jnum neg intVal false, rest4)
          | [] => none
        else some (.jnum neg intVal true, e :: rest2)
      | [] => some (.jnum neg intVal true, [])

/-- Parse the members of a JSON object after the opening brace (at least one
member): key string, colon, value (through `pv`), then a comma to continue
or a closing brace to stop.  The fuel bounds the number of members. -/
def parseMembers (pv : List Nat → Option (JVal × List Nat)) :
    Nat → List Nat → Option (List (List Nat × JVal) × List Nat)
  | 0, _ => none
  | fuel + 1, input =>
    match skipWs input with
    | [] => none
    | c :: cs =>
      if c = 34 then
        match parseStringBody cs with
        | some (key, rest1) =>
          match skipWs rest1 with
          | 58 :: rest2 =>
            match pv rest2 with
            | some (v, rest3) =>
              match skipWs rest3 with
              | 44 :: rest4 =>
                (fun r => ((key, v) :: r.1, r.2)) <$> parseMembers pv fuel rest4
              | 125 :: rest4 => some ([(key, v)], rest4)
              | _ => none
            | none => none
          | _ => none
        | none => none
      else none

/-- Parse the items of a JSON array after the opening bracket (at least one
item): value, then a comma to continue or a closing bracket to stop. -/
def parseItems (pv : List Nat → Option (JVal × List Nat)) :
    Nat → List Nat → Option (List JVal × List Nat)
  | 0, _ => none
  | fuel + 1, input =>
    match pv input with
    | some (v, rest) =>
      match skipWs rest with
      | 44 :: rest2 => (fun r => (v :: r.1, r.2)) <$> parseItems pv fuel rest2
      | 93 :: rest2 => some ([v], rest2)
      | _ => none
    | none => none

/-- Parse one JSON value after skipping leading whitespace.  The fuel bounds
the nesting depth. -/
def parseValue : Nat → List Nat → Option (JVal × List Nat)
  | 0, _ => none
  | fuel + 1, input =>
    match skipWs input with
    | [] => none
    | c :: cs =>
      if c = 34 then (fun r => (JVal.jstr r.1, r.2)) <$> parseStringBody cs
      else if c = 110 then
        match cs with
        | 117 :: 108 :: 108 :: rest => some (.jnull, rest)
        | _ => none
      else if c = 116 then
        match cs with
        | 114 :: 117 :: 101 :: rest => some (.jbool true, rest)
        | _ => none
      else if c = 102 then
        match cs with
        | 97 :: 108 :: 115 :: 101 :: rest => some (.jbool false, rest)
        | _ => none
      else if c = 45 then parseNumberBody true cs
      else if 48 ≤ c && c ≤ 57 then parseNumberBody false (c :: cs)
      else if c = 91 then
        match skipWs cs with
        | 93 :: rest => some (.jarr [], rest)
        | _ => (fun r => (JVal.jarr r.1, r.2)) <$>
            parseItems (parseValue fuel) (cs.length + 1) cs
      else if c = 123 then
        match skipWs cs with
        | 125 :: rest => some (.jobj [], rest)
        | _ => (fun r => (JVal.jobj r.1, r.2)) <$>
            parseMembers (parseValue fuel) (cs.length + 1) cs
      else none

/-- `serde_json::from_str`'s parsing phase: one value, with nothing but
whitespace after it. -/
def jsonParse (s : List Nat) : Option JVal :=
  match parseValue (s.length + 1) s with
  | some (v, rest) => if skipWs rest = [] then some v else none
  | none => none

/-- Raw memo payload structure (`memo.rs`, lines 22–36); field strings are
code-point lists, `version` is a `u8` carried as a natural. -/
structure MemoPayload where
  msg_type : List Nat
  aztec_address : List Nat
  secret_hash : List Nat
  version : Nat
deriving DecidableEq, Repr

/-- The unique value of a field in an object's member list (`serde`'s derived
deserializer: a duplicated known field is an error, unknown fields are
ignored). -/
def getField (ms : List (List Nat × JVal)) (key : List Nat) : Option JVal :=
  match ms.filter (fun m => m.1 = key) with
  | [m] => some m.2
  | _ => none

/-- Deserialize a `MemoPayload` from a JSON value, as serde's derived
implementation: an object with string fields `type` (renamed from
`msg_type`), `aztec_address`, `secret_hash`, and a `u8` field `version`
(a non-negative integer literal not exceeding 255). -/
def memoFromJson : JVal → Option MemoPayload
  | .jobj ms =>
    match getField ms (asciiCodes "type"),
        getField ms (asciiCodes "aztec_address"),
        getField ms (asciiCodes "secret_hash"),
        getField ms (asciiCodes "version") with
    | some (.jstr t), some (.jstr a), some (.jstr s),
        some (.jnum false v true) =>
      if v ≤ 255 then some ⟨t, a, s, v⟩ else none
    | _, _, _, _ => none
  | _ => none

/-- `serde_json::from_str::<MemoPayload>`: parse then deserialize. -/
def memoFromStr (s : List Nat) : Option MemoPayload :=
  (jsonParse s).bind memoFromJson

/-- Parsed bridge payload (`memo.rs`, lines 39–46). -/
structure ParsedPayload where
  aztec_address : List Byte
  secret_hash : List Byte
deriving DecidableEq, Repr

/-- Memo parser state (`memo.rs`, lines 16–19). -/
structure MemoParser where
  expected_version : Nat
deriving DecidableEq, Repr

/-- `MemoParser::new` (`memo.rs`, lines 50–54): expected version 1. -/
def MemoParser.new : MemoParser := ⟨1⟩

/-- `str::strip_prefix("0x")` with fallback to the original string
(`memo.rs`, line 118). -/
def strip0x : List Nat → List Nat
  | 48 :: 120 :: rest => rest
  | s => s

/-- `parse_hex_address` (`memo.rs`, lines 117–132): strip an optional `0x`,
require exactly 64 characters, hex-decode into 32 bytes; wrong length is
`InvalidPayload` directly, and a `hex::FromHexError` is converted into
`InvalidPayload` by the `From` impl (`error.rs`, lines 63–67). -/
def MemoParser.parse_hex_address (_p : MemoParser) (hex_str : List Nat) :
    Except SentinelError (List Byte) :=
  let s := strip0x hex_str
  if s.length ≠ 64 then
    .error (.InvalidPayload
      ("Invalid hex length: expected 64, got " ++ toString s.length))
  else
    match hexDecode s with
    | some bytes => .ok bytes
    | none => .error (.InvalidPayload "Invalid character")

/-- The meaningful content of a memo: the bytes before the first zero byte
(`memo.rs`, lines 59–64: `position(|&b| b == 0)` then slicing). -/
def memoContent (memo : List Byte) : List Byte :=
  memo.takeWhile (fun b => b != 0)

/-- `MemoParser::parse` (`memo.rs`, lines 57–114): truncate at the first zero
byte, decode UTF-8 (failure → `Ok(None)`), trim (empty → `Ok(None)`), parse
JSON into a `MemoPayload` (failure → `Ok(None)`), check the type and the
version (mismatch → `Ok(None)`), then hex-decode the two address fields
(failure → hard error). -/
def MemoParser.parse (p : MemoParser) (memo : List Byte) :
    Except SentinelError (Option ParsedPayload) :=
  let json_bytes := memoContent memo
  match utf8Decode json_bytes with
  | none => .ok none
  | some cps =>
    let json_str := trimCp cps
    if json_str = [] then .ok none
    else
      match memoFromStr json_str with
      | none => .ok none
      | some payload =>
        if payload.msg_type ≠ asciiCodes "bridge_deposit" then .ok none
        else if payload.version ≠ p.expected_version then .ok none
        else do
          let aztec_address ← p.parse_hex_address payload.aztec_address
          let secret_hash ← p.parse_hex_address payload.secret_hash
          return some ⟨aztec_address, secret_hash⟩

/-- `serde_json`'s escaping of one string character: the two-character
escapes for quote, backslash and the common control characters, `\u00XX`
for other control characters, everything else verbatim. -/
def escapeChar (c : Nat) : List Nat :=
  if c = 34 then [92, 34]
  else if c = 92 then [92, 92]
  else if c = 8 then [92, 98]
  else if c = 9 then [92, 116]
  else if c = 10 then [92, 110]
  else if c = 12 then [92, 102]
  else if c = 13 then [92, 114]
  else if c < 32 then [92, 117, 48, 48, hexDigitChar (c / 16), hexDigitChar (c % 16)]
  else [c]

/-- `serde_json`'s serialization of a string, quotes included. -/
def quoteStr (s : List Nat) : List Nat :=
  34 :: s.foldr (fun c acc => escapeChar c ++ acc) [] ++ [34]

/-- The decimal code points of a natural number. -/
def natDecCp (n : Nat) : List Nat := asciiCodes (toString n)

/-- `serde_json::to_string` of a `MemoPayload`: the compact object with the
fields in declaration order, `msg_type` serialized under the name `type`. -/
def serializeMemoPayload (p : MemoPayload) : List Nat :=
  [123] ++ quoteStr (asciiCodes "type") ++ [58] ++ quoteStr p.msg_type ++
  [44] ++ quoteStr (asciiCodes "aztec_address") ++ [58] ++
  quoteStr p.aztec_address ++
  [44] ++ quoteStr (asciiCodes "secret_hash") ++ [58] ++
  quoteStr p.secret_hash ++
  [44] ++ quoteStr (asciiCodes "version") ++ [58] ++ natDecCp p.version ++
  [125]

/-- `create_memo` (`memo.rs`, lines 135–158): serialize the payload with
`0x`-prefixed lowercase hex fields and version 1, reject JSON longer than
512 bytes, and zero-pad to 512 bytes. -/
def MemoParser.create_memo (aztec_address secret_hash : List Byte) :
    Except SentinelError (List Byte) :=
  let payload : MemoPayload :=
    ⟨asciiCodes "bridge_deposit",
     asciiCodes "0x" ++ hexEncode aztec_address,
     asciiCodes "0x" ++ hexEncode secret_hash,
     1⟩
  let json := utf8Encode (serializeMemoPayload payload)
  if 512 < json.length then
    .error (.InvalidPayload "Memo payload too large")
  else
    .ok (json ++ List.replicate (512 - json.length) 0)

/-! ## Example values used by witnesses and counterexamples -/

/-- The payload of the `test_payload_hash` unit test (`signer.rs`,
lines 224–230). -/
def exPayload : BridgePayload :=
  ⟨List.replicate 32 0xab, 1000000000, List.replicate 32 0xcd,
   List.replicate 32 0xef, 100⟩

/-- An example signer state. -/
def exSigner : AttestationSigner := ⟨0x1234, 0, 31337⟩

/-- An example attestation over `exPayload` with nonce 1 and a 65-byte
signature. -/
def exAtt : Attestation := ⟨exPayload, 1, List.replicate 65 0x11⟩

/-- The JSON content of an otherwise valid `bridge_deposit` memo whose
`aztec_address` has only 63 hex characters (the spec's §8 example); all
characters ASCII. -/
def badHexMemoJson : List Nat :=
  [123] ++
  asciiCodes "\"type\":\"bridge_deposit\",\"version\":1,\"aztec_address\":\"0x" ++
  List.replicate 63 49 ++ asciiCodes "\",\"secret_hash\":\"0x" ++
  List.replicate 64 50 ++ [34, 125]

/-- The 512-byte memo holding `badHexMemoJson`, zero-padded. -/
def badHexMemo : List Byte :=
  badHexMemoJson ++ List.replicate (512 - badHexMemoJson.length) 0

/-- The `MemoPayload` that `badHexMemoJson` deserializes to. -/
def badHexPayload : MemoPayload :=
  ⟨asciiCodes "bridge_deposit", 48 :: 120 :: List.replicate 63 49,
   48 :: 120 :: List.replicate 64 50, 1⟩

/-- An environment where every signing succeeds, the first submission fails
and every later submission succeeds. -/
def envFirstSubmitFails : ConsumerEnv where
  signResult := fun _ => .ok (List.replicate 65 0x22)
  submitResult := fun i =>
    if i = 0 then .error (.L1 "transaction failed") else .ok "0x01"

/-- Two example deposits. -/
def dep1 : BridgePayload :=
  ⟨List.replicate 32 1, 1, List.replicate 32 2, List.replicate 32 3, 10⟩

/-- A second example deposit. -/
def dep2 : BridgePayload :=
  ⟨List.replicate 32 4, 2, List.replicate 32 5, List.replicate 32 6, 11⟩

/-- The concrete bytes of the serialized memo before the aztec-address hex
characters. -/
def memoPart1 : List Nat :=
  [123, 34, 116, 121, 112, 101, 34, 58, 34, 98, 114, 105, 100, 103, 101, 95,
   100, 101, 112, 111, 115, 105, 116, 34, 44, 34, 97, 122, 116, 101, 99, 95,
   97, 100, 100, 114, 101, 115, 115, 34, 58, 34, 48, 120]

/-- The concrete bytes between the two hex fields of the serialized memo. -/
def memoPart2 : List Nat :=
  [34, 44, 34, 115, 101, 99, 114, 101, 116, 95, 104, 97, 115, 104, 34, 58,
   34, 48, 120]

/-- The concrete bytes after the secret-hash hex characters of the
serialized memo. -/
def memoPart3 : List Nat :=
  [34, 44, 34, 118, 101, 114, 115, 105, 111, 110, 34, 58, 49, 125]

end Sentinel

namespace Sentinel

/-! ## Helper lemmas -/

/-- `assemble` over parts that are all static yields the concatenation of
their encodings and an empty tail. -/
theorem assemble_static : ∀ (ps : List (Bool × List Byte)) (off : Nat),
    (∀ q ∈ ps, q.1 = false) →
    assemble off ps = (ps.foldr (fun q acc => q.2 ++ acc) [], []) := by
  intro ps
  induction ps with
  | nil => intro off _; rfl
  | cons q qs ih =>
    intro off h
    have hq : q.1 = false := h q (by simp)
    simp [assemble, hq, ih off (fun r hr => h r (by simp [hr]))]

/-- ABI encoding of a vector of static tokens is the concatenation of their
encodings. -/
theorem abiEncodeB_static (ts : List BToken)
    (h : ∀ t ∈ ts, t.isDynamic = false) :
    abiEncodeB ts = ts.foldr (fun t acc => t.enc ++ acc) [] := by
  have hps : ∀ q ∈ ts.map (fun t => (t.isDynamic, t.enc)), q.1 = false := by
    intro q hq
    rcases List.mem_map.mp hq with ⟨t, ht, rfl⟩
    exact h t ht
  simp [abiEncodeB, assembleParts, assemble_static _ _ hps, List.foldr_map]

/-- Bind of a success value in the `Except` monad. -/
theorem except_ok_bind {E A B : Type} (a : A) (f : A → Except E B) :
    (Except.ok a : Except E A) >>= f = f a := rfl

/-- Bind of an error in the `Except` monad. -/
theorem except_error_bind {E A B : Type} (e : E) (f : A → Except E B) :
    (Except.error e : Except E A) >>= f = .error e := rfl

/-- Map over a success value in the `Except` monad. -/
theorem except_map_ok {E A B : Type} (f : A → B) (a : A) :
    (f <$> (Except.ok a : Except E A)) = .ok (f a) := rfl

/-- Map over an error in the `Except` monad. -/
theorem except_map_error {E A B : Type} (f : A → B) (e : E) :
    (f <$> (Except.error e : Except E A)) = .error e := rfl

/-- The expected memo version of a fresh parser is 1. -/
theorem memoParser_new_version : MemoParser.new.expected_version = 1 := rfl

/-- `pure` in the `Except` monad is `Except.ok`. -/
theorem except_pure {E A : Type} (a : A) :
    (pure a : Except E A) = Except.ok a := rfl

/-- `takeWhile` walks through a prefix on which the predicate holds. -/
theorem takeWhile_append_of_all {α : Type} (p : α → Bool) :
    ∀ (l1 l2 : List α), (∀ x ∈ l1, p x = true) →
      (l1 ++ l2).takeWhile p = l1 ++ l2.takeWhile p := by
  intro l1
  induction l1 with
  | nil => intro l2 _; rfl
  | cons x xs ih =>
    intro l2 h
    have hx : p x = true := h x (by simp)
    simp [List.takeWhile_cons, hx, ih l2 (fun y hy => h y (List.mem_cons_of_mem x hy))]

/-- `takeWhile (· ≠ 0)` of a run of zeros is empty. -/
theorem takeWhile_ne_zero_replicate (n : Nat) :
    (List.replicate n 0).takeWhile (fun b : Nat => b ≠ 0) = [] := by
  cases n with
  | zero => rfl
  | succ m => simp [List.replicate_succ, List.takeWhile_cons]

/-- `dropWhile` is the identity when the predicate fails everywhere. -/
theorem dropWhile_of_all_neg {α : Type} (p : α → Bool) :
    ∀ (ys : List α), (∀ b ∈ ys, p b = false) → ys.dropWhile p = ys := by
  intro ys h
  cases ys with
  | nil => rfl
  | cons x xs => simp [List.dropWhile_cons, h x (by simp)]

/-- Trimming a string with no whitespace anywhere is the identity. -/
theorem trimCp_of_no_ws (cs : List Nat)
    (h : ∀ c ∈ cs, isRustWhitespace c = false) : trimCp cs = cs := by
  rw [trimCp, dropWhile_of_all_neg _ cs h,
    dropWhile_of_all_neg _ cs.reverse (fun c hc => h c (List.mem_reverse.mp hc)),
    List.reverse_reverse]

/-- The fueled UTF-8 decoder is the identity on ASCII byte strings. -/
theorem utf8DecodeF_of_ascii : ∀ (fuel : Nat) (bs : List Byte),
    bs.length < fuel → (∀ b ∈ bs, b < 128) →
    utf8DecodeF fuel bs = some bs := by
  intro fuel
  induction fuel with
  | zero => intro bs hlen _; omega
  | succ f ih =>
    intro bs hlen h
    cases bs with
    | nil => rfl
    | cons b rest =>
      have hb : b < 128 := h b (by simp)
      rw [utf8DecodeF, utf8DecodeRest, if_pos hb]
      show (fun cs => b :: cs) <$> utf8DecodeF f rest = some (b :: rest)
      rw [ih rest (by simp at hlen; omega) (fun x hx => h x (List.mem_cons_of_mem b hx))]
      rfl

/-- UTF-8 decoding of an ASCII byte string is the identity. -/
theorem utf8Decode_of_ascii (bs : List Byte) (h : ∀ b ∈ bs, b < 128) :
    utf8Decode bs = some bs :=
  utf8DecodeF_of_ascii (bs.length + 1) bs (by omega) h

/-- UTF-8 encoding of an ASCII code-point string is the identity. -/
theorem utf8Encode_of_ascii :
    ∀ (cs : List Nat), (∀ c ∈ cs, c < 128) → utf8Encode cs = cs := by
  intro cs
  induction cs with
  | nil => intro _; rfl
  | cons c rest ih =>
    intro h
    have hc : c < 128 := h c (by simp)
    have : utf8Encode (c :: rest) = utf8EncodeChar c ++ utf8Encode rest := rfl
    rw [this, ih (fun x hx => h x (List.mem_cons_of_mem c hx)), utf8EncodeChar, if_pos hc]
    rfl

/-- The length of a hex encoding is twice the number of bytes. -/
theorem hexEncode_length : ∀ (bs : List Byte),
    (hexEncode bs).length = 2 * bs.length := by
  intro bs
  induction bs with
  | nil => rfl
  | cons b rest ih =>
    have : hexEncode (b :: rest) = hexDigitChar (b / 16 % 16) ::
        hexDigitChar (b % 16) :: hexEncode rest := rfl
    simp [this, ih]
    omega

/-- Each character of a hex encoding is a lowercase hex digit. -/
theorem hexEncode_mem : ∀ (bs : List Byte) (c : Nat), c ∈ hexEncode bs →
    (48 ≤ c ∧ c ≤ 57) ∨ (97 ≤ c ∧ c ≤ 102) := by
  intro bs
  induction bs with
  | nil => intro c hc; simp [hexEncode] at hc
  | cons b rest ih =>
    intro c hc
    have hstep : hexEncode (b :: rest) = hexDigitChar (b / 16 % 16) ::
        hexDigitChar (b % 16) :: hexEncode rest := rfl
    rw [hstep] at hc
    have hdig : ∀ n : Nat, n < 16 →
        (48 ≤ hexDigitChar n ∧ hexDigitChar n ≤ 57) ∨
        (97 ≤ hexDigitChar n ∧ hexDigitChar n ≤ 102) := by
      intro n hn
      rw [hexDigitChar]
      split
      · left; omega
      · right; omega
    simp only [List.mem_cons, List.mem_singleton] at hc
    rcases hc with rfl | rfl | hc
    · exact hdig (b / 16 % 16) (by omega)
    · exact hdig (b % 16) (by omega)
    · exact ih c hc

/-- A hex digit character denotes its value. -/
theorem hexDigitVal_hexDigitChar (n : Nat) (h : n < 16) :
    hexDigitVal (hexDigitChar n) = n := by
  simp only [hexDigitChar, hexDigitVal]
  split_ifs <;> simp_all <;> omega

/-- A hex digit character is recognized as a hex digit. -/
theorem isHexDigitCp_hexDigitChar (n : Nat) (h : n < 16) :
    isHexDigitCp (hexDigitChar n) = true := by
  simp only [hexDigitChar, isHexDigitCp]
  split_ifs <;> simp <;> omega

/-- Hex decoding inverts hex encoding on byte strings. -/
theorem hexDecode_hexEncode : ∀ (bs : List Byte), (∀ b ∈ bs, b < 256) →
    hexDecode (hexEncode bs) = some bs := by
  intro bs
  induction bs with
  | nil => intro _; rfl
  | cons b rest ih =>
    intro h
    have hb : b < 256 := h b (by simp)
    have hstep : hexEncode (b :: rest) = hexDigitChar (b / 16 % 16) ::
        hexDigitChar (b % 16) :: hexEncode rest := rfl
    have hdec : hexDecode (hexDigitChar (b / 16 % 16) ::
          hexDigitChar (b % 16) :: hexEncode rest) =
        if isHexDigitCp (hexDigitChar (b / 16 % 16)) &&
            isHexDigitCp (hexDigitChar (b % 16)) then
          (fun bs => (hexDigitVal (hexDigitChar (b / 16 % 16)) * 16 +
            hexDigitVal (hexDigitChar (b % 16))) :: bs) <$>
            hexDecode (hexEncode rest)
        else none := rfl
    rw [hstep, hdec,
      isHexDigitCp_hexDigitChar _ (by omega),
      isHexDigitCp_hexDigitChar _ (by omega)]
    simp only [Bool.and_self, if_pos]
    rw [hexDigitVal_hexDigitChar _ (by omega),
      hexDigitVal_hexDigitChar _ (by omega),
      ih (fun x hx => h x (List.mem_cons_of_mem b hx))]
    simp only [Option.map_some]
    congr 2
    suffices hx : ∀ x : Nat, x < 256 → x / 16 % 16 * 16 + x % 16 = x from hx b hb
    intro x hx2
    omega

/-- A string containing a non-hex character fails to hex-decode. -/
theorem hexDecode_eq_none : ∀ (s : List Nat),
    (∃ c ∈ s, isHexDigitCp c = false) → hexDecode s = none
  | [], h => by simp at h
  | [_], _ => rfl
  | c1 :: c2 :: rest, h => by
    by_cases h12 : (isHexDigitCp c1 && isHexDigitCp c2) = true
    · have hr : ∃ c ∈ rest, isHexDigitCp c = false := by
        rcases h with ⟨c, hc, hbad⟩
        simp only [List.mem_cons, List.mem_singleton] at hc
        rcases hc with rfl | rfl | hc
        · rw [(Bool.and_eq_true _ _).mp h12 |>.1] at hbad; cases hbad
        · rw [(Bool.and_eq_true _ _).mp h12 |>.2] at hbad; cases hbad
        · exact ⟨c, hc, hbad⟩
      have hdec : hexDecode (c1 :: c2 :: rest) =
          if isHexDigitCp c1 && isHexDigitCp c2 then
            (fun bs => (hexDigitVal c1 * 16 + hexDigitVal c2) :: bs) <$>
              hexDecode rest
          else none := rfl
      rw [hdec, if_pos h12, hexDecode_eq_none rest hr]
      rfl
    · have hdec : hexDecode (c1 :: c2 :: rest) =
          if isHexDigitCp c1 && isHexDigitCp c2 then
            (fun bs => (hexDigitVal c1 * 16 + hexDigitVal c2) :: bs) <$>
              hexDecode rest
          else none := rfl
      rw [hdec, if_neg h12]

/-- A string of hex digits of even length hex-decodes. -/
theorem hexDecode_isSome : ∀ (s : List Nat),
    (∀ c ∈ s, isHexDigitCp c = true) → s.length % 2 = 0 →
    ∃ bs, hexDecode s = some bs
  | [], _, _ => ⟨[], rfl⟩
  | [_], _, hlen => by simp at hlen
  | c1 :: c2 :: rest, h, hlen => by
    obtain ⟨bs, hbs⟩ := hexDecode_isSome rest
      (fun c hc => h c (List.mem_cons_of_mem c1 (List.mem_cons_of_mem c2 hc)))
      (by simp at hlen; omega)
    refine ⟨(hexDigitVal c1 * 16 + hexDigitVal c2) :: bs, ?_⟩
    have hdec : hexDecode (c1 :: c2 :: rest) =
        if isHexDigitCp c1 && isHexDigitCp c2 then
          (fun bs => (hexDigitVal c1 * 16 + hexDigitVal c2) :: bs) <$>
            hexDecode rest
        else none := rfl
    rw [hdec, if_pos (by rw [h c1 (by simp), h c2 (by simp)]; rfl), hbs]
    rfl

/-- A string whose stripped form has the wrong length or a non-hex character
makes `parse_hex_address` fail with `InvalidPayload`. -/
def badHexStr (s : List Nat) : Prop :=
  (strip0x s).length ≠ 64 ∨ ∃ c ∈ strip0x s, isHexDigitCp c = false

/-- `parse_hex_address` returns `InvalidPayload` on a bad hex string. -/
theorem parse_hex_address_err (p : MemoParser) (s : List Nat)
    (h : badHexStr s) :
    ∃ msg, p.parse_hex_address s = .error (.InvalidPayload msg) := by
  rcases h with hlen | hbad
  · exact ⟨_, by rw [MemoParser.parse_hex_address, if_pos hlen]⟩
  · by_cases hlen : (strip0x s).length ≠ 64
    · exact ⟨_, by rw [MemoParser.parse_hex_address, if_pos hlen]⟩
    · refine ⟨"Invalid character", ?_⟩
      rw [MemoParser.parse_hex_address, if_neg hlen, hexDecode_eq_none _ hbad]

/-- `parse_hex_address` succeeds on a good hex string. -/
theorem parse_hex_address_ok (p : MemoParser) (s : List Nat)
    (h : ¬ badHexStr s) :
    ∃ bs, p.parse_hex_address s = .ok bs := by
  rw [badHexStr] at h
  push_neg at h
  obtain ⟨h1, h2⟩ := h
  obtain ⟨bs, hbs⟩ := hexDecode_isSome (strip0x s)
    (fun c hc => by
      have := h2 c hc
      revert this
      cases isHexDigitCp c <;> simp)
    (by omega)
  exact ⟨bs, by rw [MemoParser.parse_hex_address, if_neg (by omega), hbs]⟩

/-- One step of the block-processing loop: the mock `scan_block` yields
`Ok(None)`, so the step only increments the block counter. -/
theorem processBlocks_cons (s : Scanner) (h : Nat) (t : List Nat)
    (acc : Nat × List BridgePayload) :
    s.processBlocks (h :: t) acc = s.processBlocks t (acc.1 + 1, acc.2) := rfl

/-- Processing any block range never fails and collects no deposit, since
`scan_block` always returns `Ok(None)`. -/
theorem processBlocks_ok (s : Scanner) :
    ∀ (l : List Nat) (acc : Nat × List BridgePayload),
      s.processBlocks l acc = .ok (acc.1 + l.length, acc.2) := by
  intro l
  induction l with
  | nil => intro acc; rfl
  | cons h t ih =>
    intro acc
    have harith : acc.1 + 1 + t.length = acc.1 + (h :: t).length := by
      simp
      omega
    rw [processBlocks_cons, ih, harith]

/-- `scan_new_blocks` always succeeds, sends no deposit, and returns the
scanner state unchanged; the block count is `safe - last_height`
(saturating). -/
theorem scan_new_blocks_eq (s : Scanner) :
    s.scan_new_blocks =
      .ok ((1000 - s.confirmation_depth) - s.last_height, [], s) := by
  by_cases hc : 1000 - s.confirmation_depth ≤ s.last_height
  · have h0 : 1000 - s.confirmation_depth - s.last_height = 0 := by omega
    simp [Scanner.scan_new_blocks, Scanner.get_blockchain_height,
      except_ok_bind, except_pure, hc, h0]
    intro hlt
    exact absurd hlt (by omega)
  · simp [Scanner.scan_new_blocks, Scanner.get_blockchain_height,
      except_ok_bind, except_pure, hc, processBlocks_ok,
      Scanner.scannedHeights]
    simp only [if_neg
      (show ¬(1000 ≤ s.last_height + s.confirmation_depth) by omega)]
    simp [List.length_range']

/-- Consumer invariant: if the submitted nonces so far are exactly
`0, …, nonce - 1`, they remain so after draining any further deposits. -/
theorem consumer_inv (env : ConsumerEnv) (deposits : List BridgePayload) :
    ∀ (i : Nat) (st : ConsumerState),
      st.submitted.map Attestation.nonce = List.range st.nonce →
      (runConsumerFrom env i st deposits).submitted.map Attestation.nonce
        = List.range (runConsumerFrom env i st deposits).nonce := by
  induction deposits with
  | nil => intro i st h; simpa [runConsumerFrom] using h
  | cons p rest ih =>
    intro i st h
    simp only [runConsumerFrom]
    apply ih
    unfold consumerStep
    cases env.signResult i with
    | error e => simpa using h
    | ok sig =>
      cases env.submitResult i with
      | ok tx => simp [h, List.range_succ]
      | error e => simpa using h

set_option maxRecDepth 100000



/-- `escapeChar` is the identity on printable non-quote non-backslash
characters. -/
theorem escapeChar_id (c : Nat) (h1 : 32 ≤ c) (h2 : c ≠ 34) (h3 : c ≠ 92) :
    escapeChar c = [c] := by
  rw [escapeChar, if_neg (by omega), if_neg (by intro h; omega),
    if_neg (by omega), if_neg (by intro h; omega), if_neg (by omega),
    if_neg (by intro h; omega), if_neg (by omega),
    if_neg (by intro h; omega)]

/-- The serializer escape fold is the identity on strings of printable
non-quote non-backslash characters. -/
theorem escFold_id : ∀ (s : List Nat),
    (∀ c ∈ s, 32 ≤ c ∧ c ≠ 34 ∧ c ≠ 92) →
    s.foldr (fun c acc => escapeChar c ++ acc) [] = s := by
  intro s
  induction s with
  | nil => intro _; rfl
  | cons c cs ih =>
    intro h
    obtain ⟨hc1, hc2, hc3⟩ := h c (by simp)
    simp [List.foldr_cons, escapeChar_id c hc1 hc2 hc3,
      ih (fun x hx => h x (List.mem_cons_of_mem c hx))]

/-- Serializing a string of printable non-quote non-backslash characters
adds only the quotes. -/
theorem quoteStr_id (s : List Nat)
    (h : ∀ c ∈ s, 32 ≤ c ∧ c ≠ 34 ∧ c ≠ 92) :
    quoteStr s = 34 :: s ++ [34] := by
  rw [quoteStr, escFold_id s h]

/-- A closing quote ends a JSON string body. -/
theorem parseStringBody_quote (cs : List Nat) :
    parseStringBody (34 :: cs) = some ([], cs) := by
  rw [parseStringBody.eq_def]
  simp

/-- A printable non-quote non-backslash character is taken verbatim by the
JSON string parser. -/
theorem parseStringBody_cons (c : Nat) (cs : List Nat) (h1 : 32 ≤ c)
    (h2 : c ≠ 34) (h3 : c ≠ 92) :
    parseStringBody (c :: cs) =
      (fun r => (c :: r.1, r.2)) <$> parseStringBody cs := by
  rw [parseStringBody.eq_def]
  simp only [if_neg h2, if_neg h3, if_neg (show ¬(c < 32) from by omega)]

/-- A quoted section of printable non-special characters parses back as one
JSON string. -/
theorem parseStringBody_append : ∀ (s rest : List Nat),
    (∀ c ∈ s, 32 ≤ c ∧ c ≠ 34 ∧ c ≠ 92) →
    parseStringBody (s ++ 34 :: rest) = some (s, rest)
  | [], rest, _ => by
    rw [List.nil_append, parseStringBody_quote]
  | c :: s, rest, h => by
    obtain ⟨hg1, hg2, hg3⟩ := h c (by simp)
    have ih := parseStringBody_append s rest (fun x hx => h x (List.mem_cons_of_mem c hx))
    rw [List.cons_append, parseStringBody_cons c _ hg1 hg2 hg3, ih]
    rfl

/-- `skipWs` keeps a non-whitespace head. -/
theorem skipWs_cons (c : Nat) (cs : List Nat) (h : isJsonWs c = false) :
    skipWs (c :: cs) = c :: cs := by
  rw [skipWs, h]
  rfl

/-- A value whose first significant character is a quote parses as a JSON
string. -/
theorem parseValue_str (f : Nat) (input cs : List Nat)
    (h0 : skipWs input = 34 :: cs) :
    parseValue (f + 1) input =
      (fun r => (JVal.jstr r.1, r.2)) <$> parseStringBody cs := by
  rw [parseValue.eq_2, h0]
  simp

/-- A value whose first significant character is a decimal digit parses as a
JSON number. -/
theorem parseValue_digit (f : Nat) (input : List Nat) (c : Nat)
    (cs : List Nat) (h0 : skipWs input = c :: cs) (h1 : 48 ≤ c)
    (h2 : c ≤ 57) :
    parseValue (f + 1) input = parseNumberBody false (c :: cs) := by
  rw [parseValue.eq_2, h0]
  simp only []
  rw [if_neg (by omega), if_neg (by intro h; omega), if_neg (by omega),
    if_neg (by intro h; omega), if_neg (by omega),
    if_pos (by simp only [Bool.and_eq_true, decide_eq_true_eq]; omega)]

/-- A value whose first significant character opens an object with a quoted
key parses through `parseMembers`. -/
theorem parseValue_objm (f : Nat) (input cs cs2 : List Nat)
    (h0 : skipWs input = 123 :: cs) (h1 : skipWs cs = 34 :: cs2) :
    parseValue (f + 1) input =
      (fun r => (JVal.jobj r.1, r.2)) <$>
        parseMembers (parseValue f) (cs.length + 1) cs := by
  rw [parseValue.eq_2, h0]
  simp only []
  rw [if_neg (by omega), if_neg (by intro h; omega), if_neg (by omega),
    if_neg (by intro h; omega), if_neg (by omega),
    if_neg (by simp), if_neg (by intro h; omega), if_pos trivial, h1]

/-- One object member followed by a comma. -/
theorem parseMembers_cont (pv : List Nat → Option (JVal × List Nat))
    (f : Nat) (input cs key rest1 rest2 rest3 rest4 : List Nat) (v : JVal)
    (h0 : skipWs input = 34 :: cs)
    (h1 : parseStringBody cs = some (key, rest1))
    (h2 : skipWs rest1 = 58 :: rest2)
    (h3 : pv rest2 = some (v, rest3))
    (h4 : skipWs rest3 = 44 :: rest4) :
    parseMembers pv (f + 1) input =
      (fun r => ((key, v) :: r.1, r.2)) <$> parseMembers pv f rest4 := by
  rw [parseMembers.eq_2, h0]
  simp only [if_pos rfl, h1, h2, h3, h4]
  exact if_pos trivial

/-- The final object member followed by the closing brace. -/
theorem parseMembers_last (pv : List Nat → Option (JVal × List Nat))
    (f : Nat) (input cs key rest1 rest2 rest3 rest4 : List Nat) (v : JVal)
    (h0 : skipWs input = 34 :: cs)
    (h1 : parseStringBody cs = some (key, rest1))
    (h2 : skipWs rest1 = 58 :: rest2)
    (h3 : pv rest2 = some (v, rest3))
    (h4 : skipWs rest3 = 125 :: rest4) :
    parseMembers pv (f + 1) input = some ([(key, v)], rest4) := by
  rw [parseMembers.eq_2, h0]
  simp only [if_pos rfl, h1, h2, h3, h4]
  exact if_pos trivial


theorem memoFromStr_round (A S : List Nat)
    (hA : ∀ c ∈ A, (48 ≤ c ∧ c ≤ 57) ∨ (97 ≤ c ∧ c ≤ 102))
    (hS : ∀ c ∈ S, (48 ≤ c ∧ c ≤ 57) ∨ (97 ≤ c ∧ c ≤ 102))
    (hAl : A.length = 64) (hSl : S.length = 64) :
    memoFromStr (serializeMemoPayload
        ⟨asciiCodes "bridge_deposit", 48 :: 120 :: A, 48 :: 120 :: S, 1⟩)
      = some ⟨asciiCodes "bridge_deposit", 48 :: 120 :: A, 48 :: 120 :: S, 1⟩ := by
  have hAg : ∀ c ∈ A, 32 ≤ c ∧ c ≠ 34 ∧ c ≠ 92 := by
    intro c hc
    rcases hA c hc with ⟨h1, h2⟩ | ⟨h1, h2⟩ <;> omega
  have hSg : ∀ c ∈ S, 32 ≤ c ∧ c ≠ 34 ∧ c ≠ 92 := by
    intro c hc
    rcases hS c hc with ⟨h1, h2⟩ | ⟨h1, h2⟩ <;> omega
  have hA0x : ∀ c ∈ 48 :: 120 :: A, 32 ≤ c ∧ c ≠ 34 ∧ c ≠ 92 := by
    intro c hc
    simp only [List.mem_cons, List.mem_singleton] at hc
    rcases hc with rfl | rfl | hc
    · omega
    · omega
    · exact hAg c hc
  have hS0x : ∀ c ∈ 48 :: 120 :: S, 32 ≤ c ∧ c ≠ 34 ∧ c ≠ 92 := by
    intro c hc
    simp only [List.mem_cons, List.mem_singleton] at hc
    rcases hc with rfl | rfl | hc
    · omega
    · omega
    · exact hSg c hc
  have he1 : asciiCodes "type" = [116, 121, 112, 101] := rfl
  have he2 : asciiCodes "bridge_deposit" =
      [98, 114, 105, 100, 103, 101, 95, 100, 101, 112, 111, 115, 105, 116] := rfl
  have he3 : asciiCodes "aztec_address" =
      [97, 122, 116, 101, 99, 95, 97, 100, 100, 114, 101, 115, 115] := rfl
  have he4 : asciiCodes "secret_hash" =
      [115, 101, 99, 114, 101, 116, 95, 104, 97, 115, 104] := rfl
  have he5 : asciiCodes "version" = [118, 101, 114, 115, 105, 111, 110] := rfl
  have he6 : natDecCp 1 = [49] := rfl
  have hq1 : quoteStr [116, 121, 112, 101] = [34, 116, 121, 112, 101, 34] := by
    decide
  have hq2 : quoteStr [98, 114, 105, 100, 103, 101, 95, 100, 101, 112, 111,
      115, 105, 116] = [34, 98, 114, 105, 100, 103, 101, 95, 100, 101, 112,
      111, 115, 105, 116, 34] := by decide
  have hq3 : quoteStr [97, 122, 116, 101, 99, 95, 97, 100, 100, 114, 101,
      115, 115] = [34, 97, 122, 116, 101, 99, 95, 97, 100, 100, 114, 101,
      115, 115, 34] := by decide
  have hq4 : quoteStr [115, 101, 99, 114, 101, 116, 95, 104, 97, 115, 104] =
      [34, 115, 101, 99, 114, 101, 116, 95, 104, 97, 115, 104, 34] := by
    decide
  have hq5 : quoteStr [118, 101, 114, 115, 105, 111, 110] =
      [34, 118, 101, 114, 115, 105, 111, 110, 34] := by decide
  have hvA : ∀ rest : List Nat,
      parseStringBody (48 :: 120 :: (A ++ 34 :: rest))
        = some (48 :: 120 :: A, rest) := by
    intro rest
    have h := parseStringBody_append (48 :: 120 :: A) rest hA0x
    simpa [List.cons_append] using h
  have hvS : ∀ rest : List Nat,
      parseStringBody (48 :: 120 :: (S ++ 34 :: rest))
        = some (48 :: 120 :: S, rest) := by
    intro rest
    have h := parseStringBody_append (48 :: 120 :: S) rest hS0x
    simpa [List.cons_append] using h
  have hnum : parseNumberBody false (49 :: 125 :: [])
      = some (.jnum false 1 true, [125]) := by
    rw [parseNumberBody.eq_def]
    rfl
  have hsw : ∀ (c : Nat) (X : List Nat), isJsonWs c = false →
      skipWs (c :: X) = c :: X := skipWs_cons
  have hsw34 : ∀ X : List Nat, skipWs (34 :: X) = 34 :: X :=
    fun X => skipWs_cons 34 X (by decide)
  have hsw58 : ∀ X : List Nat, skipWs (58 :: X) = 58 :: X :=
    fun X => skipWs_cons 58 X (by decide)
  have hsw44 : ∀ X : List Nat, skipWs (44 :: X) = 44 :: X :=
    fun X => skipWs_cons 44 X (by decide)
  have hsw125 : ∀ X : List Nat, skipWs (125 :: X) = 125 :: X :=
    fun X => skipWs_cons 125 X (by decide)
  have hsw123 : ∀ X : List Nat, skipWs (123 :: X) = 123 :: X :=
    fun X => skipWs_cons 123 X (by decide)
  have hswnil : skipWs ([] : List Nat) = [] := rfl
  have hk1 : ∀ r : List Nat,
      parseStringBody (116 :: 121 :: 112 :: 101 :: 34 :: r)
        = some ([116, 121, 112, 101], r) := by
    intro r
    simpa using parseStringBody_append [116, 121, 112, 101] r (by decide)
  have hk2 : ∀ r : List Nat,
      parseStringBody (97 :: 122 :: 116 :: 101 :: 99 :: 95 :: 97 :: 100 ::
        100 :: 114 :: 101 :: 115 :: 115 :: 34 :: r)
        = some ([97, 122, 116, 101, 99, 95, 97, 100, 100, 114, 101, 115,
            115], r) := by
    intro r
    simpa using parseStringBody_append
      [97, 122, 116, 101, 99, 95, 97, 100, 100, 114, 101, 115, 115] r
      (by decide)
  have hk3 : ∀ r : List Nat,
      parseStringBody (115 :: 101 :: 99 :: 114 :: 101 :: 116 :: 95 :: 104 ::
        97 :: 115 :: 104 :: 34 :: r)
        = some ([115, 101, 99, 114, 101, 116, 95, 104, 97, 115, 104], r) := by
    intro r
    simpa using parseStringBody_append
      [115, 101, 99, 114, 101, 116, 95, 104, 97, 115, 104] r (by decide)
  have hk4 : ∀ r : List Nat,
      parseStringBody (118 :: 101 :: 114 :: 115 :: 105 :: 111 :: 110 :: 34 ::
        r) = some ([118, 101, 114, 115, 105, 111, 110], r) := by
    intro r
    simpa using parseStringBody_append [118, 101, 114, 115, 105, 111, 110] r
      (by decide)
  have hv1 : ∀ (f : Nat) (r : List Nat),
      parseValue (f + 1) (34 :: 98 :: 114 :: 105 :: 100 :: 103 :: 101 ::
        95 :: 100 :: 101 :: 112 :: 111 :: 115 :: 105 :: 116 :: 34 :: r)
        = some (.jstr [98, 114, 105, 100, 103, 101, 95, 100, 101, 112, 111,
            115, 105, 116], r) := by
    intro f r
    rw [parseValue_str f _ _ (hsw34 _)]
    have hbd := parseStringBody_append
      [98, 114, 105, 100, 103, 101, 95, 100, 101, 112, 111, 115, 105, 116] r
      (by decide)
    simp only [List.cons_append, List.nil_append] at hbd
    rw [hbd]
    rfl
  have hv2 : ∀ (f : Nat) (r : List Nat),
      parseValue (f + 1) (34 :: 48 :: 120 :: (A ++ 34 :: r))
        = some (.jstr (48 :: 120 :: A), r) := by
    intro f r
    rw [parseValue_str f _ _ (hsw34 _), hvA r]
    rfl
  have hv3 : ∀ (f : Nat) (r : List Nat),
      parseValue (f + 1) (34 :: 48 :: 120 :: (S ++ 34 :: r))
        = some (.jstr (48 :: 120 :: S), r) := by
    intro f r
    rw [parseValue_str f _ _ (hsw34 _), hvS r]
    rfl
  have hv4 : ∀ f : Nat, parseValue (f + 1) (49 :: 125 :: [])
      = some (.jnum false 1 true, [125]) := by
    intro f
    rw [parseValue_digit f _ 49 (125 :: []) (skipWs_cons 49 _ (by decide))
      (by omega) (by omega)]
    exact hnum
  simp only [serializeMemoPayload, he1, he2, he3, he4, he5, he6,
    hq1, hq2, hq3, hq4, hq5, quoteStr_id _ hA0x, quoteStr_id _ hS0x,
    List.cons_append, List.append_assoc, List.nil_append, List.append_nil,
    List.singleton_append]
  rw [memoFromStr, jsonParse]
  norm_num [List.length_cons, List.length_append, hAl, hSl]
  simp [parseValue_objm, parseMembers_cont, parseMembers_last,
    hsw34, hsw58, hsw44, hsw125, hsw123, hswnil,
    hk1, hk2, hk3, hk4, hv1, hv2, hv3, hv4,
    memoFromJson, getField, List.filter, he1, he2, he3, he4, he5,
    List.length_cons, List.length_append, hAl, hSl, Option.map_some]
  rw [parseMembers_cont _ 204 _ _ _ _ _ _ _ _ (hsw34 _) (hk1 _) (hsw58 _)
    (hv1 204 _) (hsw44 _)]
  rw [parseMembers_cont _ 203 _ _ _ _ _ _ _ _ (hsw34 _) (hk2 _) (hsw58 _)
    (hv2 204 _) (hsw44 _)]
  rw [parseMembers_cont _ 202 _ _ _ _ _ _ _ _ (hsw34 _) (hk3 _) (hsw58 _)
    (hv3 204 _) (hsw44 _)]
  rw [parseMembers_last _ 201 _ _ _ _ _ _ _ _ (hsw34 _) (hk4 _) (hsw58 _)
    (hv4 204) (hsw125 _)]
  simp [memoFromJson, getField, List.filter, he1, he2, he3, he4, he5,
    hswnil, Option.map_some]

/-- The serialized memo JSON splits into concrete sections around the two
hex fields. -/
theorem serializeMemoPayload_split (A S : List Nat)
    (hA0x : ∀ c ∈ 48 :: 120 :: A, 32 ≤ c ∧ c ≠ 34 ∧ c ≠ 92)
    (hS0x : ∀ c ∈ 48 :: 120 :: S, 32 ≤ c ∧ c ≠ 34 ∧ c ≠ 92) :
    serializeMemoPayload
        ⟨asciiCodes "bridge_deposit", 48 :: 120 :: A, 48 :: 120 :: S, 1⟩
      = memoPart1 ++ (A ++ (memoPart2 ++ (S ++ memoPart3))) := by
  have he1 : asciiCodes "type" = [116, 121, 112, 101] := rfl
  have he2 : asciiCodes "bridge_deposit" =
      [98, 114, 105, 100, 103, 101, 95, 100, 101, 112, 111, 115, 105, 116] := rfl
  have he3 : asciiCodes "aztec_address" =
      [97, 122, 116, 101, 99, 95, 97, 100, 100, 114, 101, 115, 115] := rfl
  have he4 : asciiCodes "secret_hash" =
      [115, 101, 99, 114, 101, 116, 95, 104, 97, 115, 104] := rfl
  have he5 : asciiCodes "version" = [118, 101, 114, 115, 105, 111, 110] := rfl
  have he6 : natDecCp 1 = [49] := rfl
  have hq1 : quoteStr [116, 121, 112, 101] = [34, 116, 121, 112, 101, 34] := by
    decide
  have hq2 : quoteStr [98, 114, 105, 100, 103, 101, 95, 100, 101, 112, 111,
      115, 105, 116] = [34, 98, 114, 105, 100, 103, 101, 95, 100, 101, 112,
      111, 115, 105, 116, 34] := by decide
  have hq3 : quoteStr [97, 122, 116, 101, 99, 95, 97, 100, 100, 114, 101,
      115, 115] = [34, 97, 122, 116, 101, 99, 95, 97, 100, 100, 114, 101,
      115, 115, 34] := by decide
  have hq4 : quoteStr [115, 101, 99, 114, 101, 116, 95, 104, 97, 115, 104] =
      [34, 115, 101, 99, 114, 101, 116, 95, 104, 97, 115, 104, 34] := by
    decide
  have hq5 : quoteStr [118, 101, 114, 115, 105, 111, 110] =
      [34, 118, 101, 114, 115, 105, 111, 110, 34] := by decide
  simp only [serializeMemoPayload, he1, he2, he3, he4, he5, he6,
    hq1, hq2, hq3, hq4, hq5, quoteStr_id _ hA0x, quoteStr_id _ hS0x,
    memoPart1, memoPart2, memoPart3,
    List.cons_append, List.append_assoc, List.nil_append, List.append_nil,
    List.singleton_append]

/-! ## Claim theorems -/

/-- Claim C1: for every payload and every nonce, `compute_payload_hash`
equals keccak256 of the concatenation, in this exact order, of the six
32-byte ABI words: `tx_hash` as-is, `amount` as a 256-bit big-endian
zero-padded unsigned integer, `secret_hash` as-is, the recipient (aztec)
address as-is, the nonce as a 256-bit zero-padded unsigned integer, and
`block_height` as a 256-bit zero-padded unsigned integer. -/
theorem payload_hash_is_keccak_of_six_words (s : AttestationSigner)
    (p : BridgePayload) (nonce : Nat)
    (htx : p.tx_hash.length = 32) (hsec : p.secret_hash.length = 32)
    (haz : p.aztec_address.length = 32) :
    s.compute_payload_hash p nonce =
      keccak256 (p.tx_hash ++ beBytes 32 p.amount ++ p.secret_hash ++
        p.aztec_address ++ beBytes 32 nonce ++ beBytes 32 p.block_height) := by
  have hpad : ∀ bs : List Byte, bs.length = 32 → padRight32 bs = bs := by
    intro bs h
    simp [padRight32, h]
  have hstat : ∀ t ∈ payloadTokens p nonce, t.isDynamic = false := by
    intro t ht
    simp only [payloadTokens, List.mem_cons, List.not_mem_nil, or_false] at ht
    obtain rfl | rfl | rfl | rfl | rfl | rfl := ht <;> rfl
  rw [AttestationSigner.compute_payload_hash, abiEncodeB_static _ hstat]
  simp [payloadTokens, BToken.enc, hpad _ htx, hpad _ hsec, hpad _ haz]

/-- Witness for C1 at the payload of the `test_payload_hash` unit test with
nonce 1. -/
theorem payload_hash_witness :
    exPayload.tx_hash.length = 32 ∧
    exSigner.compute_payload_hash exPayload 1 =
      keccak256 (exPayload.tx_hash ++ beBytes 32 exPayload.amount ++
        exPayload.secret_hash ++ exPayload.aztec_address ++ beBytes 32 1 ++
        beBytes 32 exPayload.block_height) :=
  ⟨by decide,
   payload_hash_is_keccak_of_six_words exSigner exPayload 1
     (by rfl) (by decide) (by rfl)⟩

/-- Claim C2 (code bug): on a fully successful scan of the range `[1, 994]`
(height 1000, depth 6, cursor 0), `scan_new_blocks` processes all 994 blocks
without error yet the cursor stays at its pre-scan value 0 instead of
advancing to `safe = 994`: the update at `scanner.rs` line 150 is commented
out. -/
theorem cursor_not_advanced_after_full_success :
    (Scanner.mk 6 0).scan_new_blocks = .ok (994, [], Scanner.mk 6 0) ∧
    (1000 : Nat) - 6 = 994 ∧
    (Scanner.mk 6 0).last_height = 0 := by
  refine ⟨?_, rfl, rfl⟩
  simpa using scan_new_blocks_eq (Scanner.mk 6 0)

/-- Claim C3: the nonce counter advances only when a submission is confirmed
(the final counter equals the number of confirmed submissions), and across
`N` sequential successful submissions the assigned nonces are exactly
`0, 1, …, N-1` in deposit-arrival order. -/
theorem consumer_nonces_are_range (env : ConsumerEnv)
    (deposits : List BridgePayload) :
    (runConsumer env deposits).submitted.map Attestation.nonce
        = List.range (runConsumer env deposits).submitted.length ∧
    (runConsumer env deposits).nonce
        = (runConsumer env deposits).submitted.length := by
  simp only [runConsumer]
  have h := consumer_inv env deposits 0 ⟨0, [], []⟩ (by simp)
  have hlen : (runConsumerFrom env 0 ⟨0, [], []⟩ deposits).submitted.length
      = (runConsumerFrom env 0 ⟨0, [], []⟩ deposits).nonce := by
    simpa using congrArg List.length h
  exact ⟨by rw [hlen]; exact h, hlen.symm⟩

/-- Claim C4 (counterexample): when the first submission fails and the next
succeeds, the run signs two attestations that both carry nonce 0, refuting
"no two attestations signed during one run carry the same nonce". -/
theorem nonce_reused_after_failed_submission :
    (runConsumer envFirstSubmitFails [dep1, dep2]).signed.map Attestation.nonce
        = [0, 0] ∧
    ¬ ((runConsumer envFirstSubmitFails [dep1, dep2]).signed.map
        Attestation.nonce).Nodup := by
  decide

/-- Claim C4 (amended): within one run, no two attestations whose submission
succeeded carry the same nonce; a nonce is re-issued to a later signing only
after a failed submission. -/
theorem submitted_nonces_distinct (env : ConsumerEnv)
    (deposits : List BridgePayload) :
    (((runConsumer env deposits).submitted.map Attestation.nonce)).Nodup := by
  simp only [runConsumer]
  rw [consumer_inv env deposits 0 ⟨0, [], []⟩ (by simp)]
  exact List.nodup_range _

/-- Claim C5 (code bug): the calldata built by `submit_attestation` is the
selector followed by three separately encoded pieces, not the standard ABI
encoding of the argument tuple: word 6 of the arguments (bytes 196..227 of
the calldata) holds the offset `0x20` of the piece-local `bytes` encoding,
where the standard tuple encoding holds the offset `0x100`; the two byte
strings differ. -/
theorem submit_calldata_not_standard_tuple_encoding :
    ((exSigner.submit_calldata exAtt).drop 196).take 32 = beBytes 32 0x20 ∧
    ((exSigner.submit_calldata_spec exAtt).drop 196).take 32
        = beBytes 32 0x100 ∧
    exSigner.submit_calldata exAtt ≠ exSigner.submit_calldata_spec exAtt := by
  have h1 : ((exSigner.submit_calldata exAtt).drop 196).take 32
      = beBytes 32 0x20 := by decide
  have h2 : ((exSigner.submit_calldata_spec exAtt).drop 196).take 32
      = beBytes 32 0x100 := by decide
  refine ⟨h1, h2, fun he => ?_⟩
  rw [he] at h1
  exact absurd (h1.symm.trans h2) (by decide)

/-- Claim C8: a memo that is all zero bytes, or whose truncated content is
not valid UTF-8, or is empty after trimming, or does not parse and
deserialize as a JSON object with the required fields, or has a type other
than `bridge_deposit`, or a version different from 1, makes `parse` return
`Ok(None)` and never an error. -/
theorem memo_absence_is_silent (memo : List Byte) (hlen : memo.length = 512)
    (h : (∀ b ∈ memo, b = 0) ∨
      utf8Decode (memoContent memo) = none ∨
      (∃ cps, utf8Decode (memoContent memo) = some cps ∧
        (trimCp cps = [] ∨ memoFromStr (trimCp cps) = none ∨
         (∃ p, memoFromStr (trimCp cps) = some p ∧
           (p.msg_type ≠ asciiCodes "bridge_deposit" ∨ p.version ≠ 1))))) :
    MemoParser.new.parse memo = .ok none := by
  rcases h with hzero | hdec | ⟨cps, hdec, hrest⟩
  · have h0 : memoContent memo = [] := by
      rw [memoContent]
      cases hm : memo with
      | nil => rfl
      | cons b rest =>
        have hb : b = 0 := hzero b (by rw [hm]; simp)
        simp [List.takeWhile_cons, hb]
    simp only [MemoParser.parse, h0]
    rfl
  · simp [MemoParser.parse, hdec]
  · rcases hrest with htrim | hjson | ⟨p, hjson, hbad⟩
    · simp [MemoParser.parse, hdec, htrim]
    · by_cases htrim : trimCp cps = []
      · simp [MemoParser.parse, hdec, htrim]
      · simp [MemoParser.parse, hdec, htrim, hjson]
    · by_cases htrim : trimCp cps = []
      · simp [MemoParser.parse, hdec, htrim]
      · rcases hbad with htype | hver
        · simp [MemoParser.parse, hdec, htrim, hjson, htype]
        · by_cases htype : p.msg_type = asciiCodes "bridge_deposit"
          · simp [MemoParser.parse, hdec, htrim, hjson, htype, hver,
              memoParser_new_version]
          · simp [MemoParser.parse, hdec, htrim, hjson, htype]

/-- Witness for C8 at the all-zero memo. -/
theorem memo_absence_witness :
    (List.replicate 512 (0 : Byte)).length = 512 ∧
    MemoParser.new.parse (List.replicate 512 0) = .ok none :=
  ⟨by simp,
   memo_absence_is_silent _ (by simp)
     (.inl (fun b hb => List.eq_of_mem_replicate hb))⟩

/-- Claim C7: a memo that decodes and deserializes to a `bridge_deposit`
payload of the supported version, but whose `aztec_address` or `secret_hash`
(after stripping an optional `0x`) is not exactly 64 hex characters or
contains a non-hex character, makes `parse` return the hard error
`InvalidPayload` rather than `None`. -/
theorem malformed_hex_is_invalid_payload (memo : List Byte) (cps : List Nat)
    (p : MemoPayload) (hlen : memo.length = 512)
    (hdec : utf8Decode (memoContent memo) = some cps)
    (hjson : memoFromStr (trimCp cps) = some p)
    (htype : p.msg_type = asciiCodes "bridge_deposit")
    (hver : p.version = 1)
    (hbad : badHexStr p.aztec_address ∨ badHexStr p.secret_hash) :
    ∃ msg, MemoParser.new.parse memo = .error (.InvalidPayload msg) := by
  have htrim : ¬ (trimCp cps = []) := by
    intro h0
    rw [h0] at hjson
    simp [memoFromStr, jsonParse, parseValue, skipWs] at hjson
  by_cases hA : badHexStr p.aztec_address
  · obtain ⟨msg, hmsg⟩ := parse_hex_address_err MemoParser.new _ hA
    refine ⟨msg, ?_⟩
    simp [MemoParser.parse, hdec, htrim, hjson, htype, hver,
      memoParser_new_version, hmsg, except_error_bind, except_map_error,
      except_map_ok]
  · obtain ⟨bs, hbs⟩ := parse_hex_address_ok MemoParser.new _ hA
    obtain ⟨msg, hmsg⟩ := parse_hex_address_err MemoParser.new _
      (hbad.resolve_left hA)
    refine ⟨msg, ?_⟩
    simp [MemoParser.parse, hdec, htrim, hjson, htype, hver,
      memoParser_new_version, hbs, hmsg, except_ok_bind, except_error_bind,
      except_map_error, except_map_ok]

/-- Witness for C7 at a memo whose `aztec_address` has 63 hex characters. -/
theorem malformed_hex_witness :
    badHexMemo.length = 512 ∧
    (∃ msg, MemoParser.new.parse badHexMemo = .error (.InvalidPayload msg)) :=
  ⟨by decide,
   malformed_hex_is_invalid_payload badHexMemo badHexMemoJson badHexPayload
     (by rfl) (by decide) (by rfl) (by decide) (by rfl)
     (Or.inl (Or.inl (by decide)))⟩

/-- Claim C9: the safe height is the saturating difference
`max(0, H - depth)`; a height is scanned exactly when it lies in the
inclusive range `[cursor + 1, safe]` (so the tick is a no-op when
`safe ≤ cursor`); and with depth 6 a deposit at height 100 is in the scanned
range only when the chain height is at least 106. -/
theorem scan_range_and_confirmation_depth (c H d : Nat) :
    ((H - d : Nat) : Int) = max 0 ((H : Int) - (d : Int)) ∧
    (∀ h, h ∈ (Scanner.mk d c).scannedHeights H ↔ c + 1 ≤ h ∧ h ≤ H - d) ∧
    (H - d ≤ c → (Scanner.mk d c).scannedHeights H = []) ∧
    (100 ∈ (Scanner.mk 6 c).scannedHeights H → 106 ≤ H) := by
  refine ⟨by omega, ?_, ?_, ?_⟩
  · intro h
    by_cases hc : H - d ≤ c
    · simp only [Scanner.scannedHeights, if_pos hc]
      simp
      omega
    · simp only [Scanner.scannedHeights, if_neg hc]
      simp [List.mem_range'_1]
      omega
  · intro hc
    simp [Scanner.scannedHeights, hc]
  · intro hmem
    by_cases hc : H - 6 ≤ c
    · simp [Scanner.scannedHeights, hc] at hmem
    · simp only [Scanner.scannedHeights, if_neg hc] at hmem
      rw [List.mem_range'_1] at hmem
      omega

/-- Witness for C9 at cursor 0, height 1000, depth 6: block 994 is scanned,
and a deposit at height 100 being in range at height 1000 implies
`1000 ≥ 106`. -/
theorem scan_range_witness :
    (994 ∈ (Scanner.mk 6 0).scannedHeights 1000) ∧ (106 : Nat) ≤ 1000 :=
  ⟨((scan_range_and_confirmation_depth 0 1000 6).2.1 994).mpr (by decide),
   (scan_range_and_confirmation_depth 0 1000 6).2.2.2 (by decide)⟩

/-- Claim C10: `scan_block` returns `Ok(None)` at every height (its mock
transaction list is empty), `get_blockchain_height` always returns 1000,
`scan_new_blocks` therefore sends no deposit on any tick, and with an empty
deposit stream the attestation consumer signs and submits nothing. -/
theorem scanner_never_delivers :
    (∀ (s : Scanner) (h : Nat), s.scan_block h = .ok none) ∧
    (∀ s : Scanner, s.get_blockchain_height = .ok 1000) ∧
    (∀ s : Scanner, s.scan_new_blocks =
        .ok ((1000 - s.confirmation_depth) - s.last_height, [], s)) ∧
    (∀ env : ConsumerEnv, runConsumer env [] = ⟨0, [], []⟩) :=
  ⟨fun _ _ => rfl, fun _ => rfl, scan_new_blocks_eq, fun _ => rfl⟩

/-- Claim C6: for every pair of 32-byte values, encoding them as a
512-byte memo with create_memo and then decoding that memo with parse
round-trips: parse returns ok (some payload) with the original aztec
address and secret hash. -/
theorem memo_round_trip (a s : List Byte)
    (ha : a.length = 32) (ha2 : ∀ b ∈ a, b < 256)
    (hs : s.length = 32) (hs2 : ∀ b ∈ s, b < 256) :
    ∃ memo, MemoParser.create_memo a s = .ok memo ∧
      MemoParser.new.parse memo = .ok (some ⟨a, s⟩) := by
  have hAl : (hexEncode a).length = 64 := by rw [hexEncode_length, ha]
  have hSl : (hexEncode s).length = 64 := by rw [hexEncode_length, hs]
  have hAcl := hexEncode_mem a
  have hScl := hexEncode_mem s
  have hA0x : ∀ c ∈ 48 :: 120 :: hexEncode a, 32 ≤ c ∧ c ≠ 34 ∧ c ≠ 92 := by
    intro c hc
    simp only [List.mem_cons, List.mem_singleton] at hc
    rcases hc with rfl | rfl | hc
    · omega
    · omega
    · rcases hAcl c hc with ⟨h1, h2⟩ | ⟨h1, h2⟩ <;> omega
  have hS0x : ∀ c ∈ 48 :: 120 :: hexEncode s, 32 ≤ c ∧ c ≠ 34 ∧ c ≠ 92 := by
    intro c hc
    simp only [List.mem_cons, List.mem_singleton] at hc
    rcases hc with rfl | rfl | hc
    · omega
    · omega
    · rcases hScl c hc with ⟨h1, h2⟩ | ⟨h1, h2⟩ <;> omega
  have h0x : ∀ X : List Nat, asciiCodes "0x" ++ X = 48 :: 120 :: X :=
    fun X => rfl
  have hser := serializeMemoPayload_split (hexEncode a) (hexEncode s) hA0x hS0x
  -- every character of the serialized JSON is printable ASCII
  have hchars : ∀ c ∈ serializeMemoPayload
      ⟨asciiCodes "bridge_deposit", 48 :: 120 :: hexEncode a,
       48 :: 120 :: hexEncode s, 1⟩, 33 ≤ c ∧ c ≤ 125 := by
    rw [hser]
    intro c hc
    simp only [List.mem_append] at hc
    have hp1 : ∀ c ∈ memoPart1, 33 ≤ c ∧ c ≤ 125 := by decide
    have hp2 : ∀ c ∈ memoPart2, 33 ≤ c ∧ c ≤ 125 := by decide
    have hp3 : ∀ c ∈ memoPart3, 33 ≤ c ∧ c ≤ 125 := by decide
    rcases hc with hc | hc | hc | hc | hc
    · exact hp1 c hc
    · rcases hAcl c hc with ⟨h1, h2⟩ | ⟨h1, h2⟩ <;> omega
    · exact hp2 c hc
    · rcases hScl c hc with ⟨h1, h2⟩ | ⟨h1, h2⟩ <;> omega
    · exact hp3 c hc
  have hJlen : (serializeMemoPayload
      ⟨asciiCodes "bridge_deposit", 48 :: 120 :: hexEncode a,
       48 :: 120 :: hexEncode s, 1⟩).length = 205 := by
    rw [hser]
    simp [memoPart1, memoPart2, memoPart3, hAl, hSl]
  have hJenc : utf8Encode (serializeMemoPayload
      ⟨asciiCodes "bridge_deposit", 48 :: 120 :: hexEncode a,
       48 :: 120 :: hexEncode s, 1⟩) = serializeMemoPayload
      ⟨asciiCodes "bridge_deposit", 48 :: 120 :: hexEncode a,
       48 :: 120 :: hexEncode s, 1⟩ :=
    utf8Encode_of_ascii _ (fun c hc => by have := hchars c hc; omega)
  have hcreate : MemoParser.create_memo a s = .ok (serializeMemoPayload
      ⟨asciiCodes "bridge_deposit", 48 :: 120 :: hexEncode a,
       48 :: 120 :: hexEncode s, 1⟩ ++ List.replicate 307 0) := by
    simp only [MemoParser.create_memo, h0x, hJenc, hJlen]
    rw [if_neg (by omega)]
  refine ⟨_, hcreate, ?_⟩
  have hcontent : memoContent (serializeMemoPayload
      ⟨asciiCodes "bridge_deposit", 48 :: 120 :: hexEncode a,
       48 :: 120 :: hexEncode s, 1⟩ ++ List.replicate 307 0)
      = serializeMemoPayload
      ⟨asciiCodes "bridge_deposit", 48 :: 120 :: hexEncode a,
       48 :: 120 :: hexEncode s, 1⟩ := by
    have hne0 : ∀ x : Nat, 33 ≤ x → (x != 0) = true := by
      intro x h1
      simp only [bne_iff_ne, ne_eq]
      omega
    rw [memoContent, takeWhile_append_of_all _ _ _
      (fun b hb => hne0 b (hchars b hb).1)]
    simp [List.takeWhile_replicate]
  have hdec : utf8Decode (serializeMemoPayload
      ⟨asciiCodes "bridge_deposit", 48 :: 120 :: hexEncode a,
       48 :: 120 :: hexEncode s, 1⟩) = some (serializeMemoPayload
      ⟨asciiCodes "bridge_deposit", 48 :: 120 :: hexEncode a,
       48 :: 120 :: hexEncode s, 1⟩) :=
    utf8Decode_of_ascii _ (fun c hc => by
      have h2 := hchars c hc
      have hx : ∀ x : Nat, 33 ≤ x → x ≤ 125 → x < 128 := by
        intro x h1 h3
        omega
      exact hx c h2.1 h2.2)
  have htrim : trimCp (serializeMemoPayload
      ⟨asciiCodes "bridge_deposit", 48 :: 120 :: hexEncode a,
       48 :: 120 :: hexEncode s, 1⟩) = serializeMemoPayload
      ⟨asciiCodes "bridge_deposit", 48 :: 120 :: hexEncode a,
       48 :: 120 :: hexEncode s, 1⟩ :=
    trimCp_of_no_ws _ (fun c hc => by
      have h2 := hchars c hc
      have hx : ∀ x : Nat, 33 ≤ x → x ≤ 125 → isRustWhitespace x = false := by
        intro x h1 h3
        simp only [isRustWhitespace, Bool.or_eq_false_iff, Bool.and_eq_false_iff,
          decide_eq_false_iff_not, not_le]
        omega
      exact hx c h2.1 h2.2)
  have hne : ¬ (serializeMemoPayload
      ⟨asciiCodes "bridge_deposit", 48 :: 120 :: hexEncode a,
       48 :: 120 :: hexEncode s, 1⟩ = []) := by
    intro h
    rw [h] at hJlen
    exact absurd hJlen (by decide)
  have hround := memoFromStr_round (hexEncode a) (hexEncode s) hAcl hScl hAl hSl
  have hphaA : MemoParser.new.parse_hex_address (48 :: 120 :: hexEncode a)
      = .ok a := by
    have hstrip : strip0x (48 :: 120 :: hexEncode a) = hexEncode a := rfl
    simp only [MemoParser.parse_hex_address, hstrip, hAl]
    rw [if_neg (by omega), hexDecode_hexEncode a ha2]
  have hphaS : MemoParser.new.parse_hex_address (48 :: 120 :: hexEncode s)
      = .ok s := by
    have hstrip : strip0x (48 :: 120 :: hexEncode s) = hexEncode s := rfl
    simp only [MemoParser.parse_hex_address, hstrip, hSl]
    rw [if_neg (by omega), hexDecode_hexEncode s hs2]
  simp only [MemoParser.parse, hcontent, hdec, htrim, hne, hround,
    memoParser_new_version]
  simp [hphaA, hphaS, except_ok_bind, except_pure]

theorem memo_round_trip_witness :
    ∃ memo, MemoParser.create_memo (List.replicate 32 18) (List.replicate 32 52)
        = .ok memo ∧
      MemoParser.new.parse memo
        = .ok (some ⟨List.replicate 32 18, List.replicate 32 52⟩) :=
  memo_round_trip (List.replicate 32 18) (List.replicate 32 52)
    (by rfl) (by decide) (by rfl) (by decide)

end Sentinel
